import Mathlib

/-!
Shallow embedding of `src/bin/ssPrep.py` (splice-site correction tool).

Python integers are modelled as `Int` (arbitrary precision, no overflow).
Python `dict` (the splice-site table `ssData`) is modelled as an association
list with insert-or-replace update, matching dict key semantics.  The external
`kerneltree.IntervalTree` is modelled as a list of intervals whose
`search(c, c)` returns all stored intervals whose inclusive window
`[lo, hi]` contains `c`, which is the windowed point-containment contract the
program relies on.  Fallible operations (Python `KeyError` on a missing dict
key, `min()` of an empty list) are modelled with `Option`.
-/

/-- The observable fields of a Python `SS` splice-site object: genomic
coordinate, strand symbol and splice-site type (`"donor"`, `"acceptor"` or
Python `None`, modelled as `Option String`). -/
structure SSCore where
  coord : Int
  strand : String
  ssType : Option String
deriving DecidableEq, Repr

/-- A Python `SS` object as stored in the `ssData` dict: its own fields
(`core`), its `support` set of annotation labels (a Python `set`, modelled as
a duplicate-free list), and the observable fields of the object its `ssCorr`
attribute points to.  In the source `ssCorr` is an object reference (to the
object itself for annotated / novel / ambiguous sites, or to the annotated
site's object after a unique resolution); the referenced object's fields are
never mutated after the reference is taken, so storing a snapshot of its
fields is faithful. -/
structure SS where
  core : SSCore
  support : List String
  ssCorr : SSCore
deriving DecidableEq, Repr

/-- The `ssData` dict mapping a coordinate to its `SS` object. -/
abbrev SSMap := List (Int × SS)

/-- Dict lookup: `ssData[c]`, `none` when the key is absent. -/
def mapLookup : SSMap → Int → Option SS
  | [], _ => none
  | (k, v) :: rest, c => if k = c then some v else mapLookup rest c

/-- Dict update `ssData[c] = v`: replace in place when the key exists,
append otherwise (Python dicts keep the first insertion position). -/
def mapUpdate : SSMap → Int → SS → SSMap
  | [], c, v => [(c, v)]
  | (k, w) :: rest, c, v =>
      if k = c then (c, v) :: rest else (k, w) :: mapUpdate rest c v

/-- One window stored in the interval index: inclusive bounds and the payload
coordinate passed to `IntervalTree.add(lo, hi, val)`. -/
structure Window where
  lo : Int
  hi : Int
  val : Int
deriving DecidableEq, Repr

/-- The `kerneltree.IntervalTree` contents. -/
abbrev IntervalTree := List Window

/-- `intTree.search(s, e)`: every stored window overlapping the inclusive
query interval `[s, e]`.  The program only issues point queries
`search(c, c)`, for which this returns the windows containing `c`. -/
def treeSearch (t : IntervalTree) (s e : Int) : List Window :=
  t.filter (fun iv => decide (iv.lo ≤ e) && decide (s ≤ iv.hi))

/-- Python `set.add` on a set modelled as a duplicate-free list. -/
def setAdd (s : List String) (v : String) : List String :=
  if v ∈ s then s else s ++ [v]

/-- Python `min` over a nonempty list of Nat (used for the hit distances). -/
def listMinNat : List Nat → Nat
  | [] => 0
  | a :: as => as.foldl min a

/-- Python `min` over a list of Int; `none` models the `ValueError` raised
on an empty list. -/
def minList : List Int → Option Int
  | [] => none
  | a :: as => some (as.foldl min a)

/-- The loop body of `juncsToBed12` for junction index `num ≥ 1`, plus the
trailing final-block append, carrying the previous junction's right
coordinate (`coords[num-1][1]`).  Returns `(sizes, starts)` for the part of
the lists after the first entry. -/
def juncsLoop (start endP : Int) (prevRight : Int) : List (Int × Int) → List Int × List Int
  | [] =>
      let st := prevRight - start
      ([endP - (st + start)], [st])
  | (a, b) :: rest =>
      let st := prevRight - start
      let size := a - (st + start)
      let tailPart := juncsLoop start endP b rest
      (size :: tailPart.1, st :: tailPart.2)

/-- `juncsToBed12(start, end, coords)` from the source: convert alignment
start, end and junction coordinates to bed12 `(num_exons, sizes, starts)`.
(`endP` stands for the Python parameter `end`, a reserved word in Lean.) -/
def juncsToBed12 (start endP : Int) (coords : List (Int × Int)) :
    Nat × List Int × List Int :=
  match coords with
  | [] => (1, [endP - start], [0])
  | (a0, b0) :: rest =>
      let tailPart := juncsLoop start endP b0 rest
      let sizes := ((start - a0).natAbs : Int) :: tailPart.1
      let starts := (0 : Int) :: tailPart.2
      (starts.length, sizes, starts)

/-- `BED12.bed12toJuncs` from the source: walk the block starts pairwise,
emitting `(start + starts[num] + sizes[num], start + starts[num+1])` for each
adjacent pair of blocks.  The iteration stops when `num+1` reaches the end of
`starts`; the source indexes `sizes[num]` in lockstep, which is defined
whenever `len(sizes) ≥ len(starts) - 1` (every record the program builds has
`len(sizes) = len(starts)`). -/
def bed12toJuncs (start : Int) : List Int → List Int → List (Int × Int)
  | sz :: szs, st :: st2 :: sts =>
      (start + st + sz, start + st2) :: bed12toJuncs start szs (st2 :: sts)
  | _, _ => []

/-- `ssCorrrect(c, strand, ssType, intTree, ssData)` from the source: correct
an un-annotated splice site.  No window hit: store a novel self-canonical
site with type `None`.  A tie for the minimal distance: store an ambiguous
self-canonical site with type `None`.  A unique nearest hit: store a site
whose `ssCorr` references the table entry of the hit's payload coordinate
(`none` models the `KeyError` the source would raise if that payload were
missing from `ssData`). -/
def ssCorrrect (c : Int) (strand : String) (ssType : Option String)
    (intTree : IntervalTree) (ssData : SSMap) : Option SSMap :=
  let hits := treeSearch intTree c c
  if hits.length < 1 then
    some (mapUpdate ssData c ⟨⟨c, strand, none⟩, [], ⟨c, strand, none⟩⟩)
  else
    let distances := hits.map (fun x => (c - x.val).natAbs)
    let minVal := listMinNat distances
    let count := distances.count minVal
    if count > 1 then
      some (mapUpdate ssData c ⟨⟨c, strand, none⟩, [], ⟨c, strand, none⟩⟩)
    else
      match mapLookup ssData ((hits.getD (distances.indexOf minVal) ⟨0, 0, 0⟩).val) with
      | none => none
      | some canon =>
          some (mapUpdate ssData c ⟨⟨c, strand, ssType⟩, [], canon.core⟩)

/-- The guarded resolution used by `correctReads`:
`if c not in ssData: ssData = ssCorrrect(c, strand, cType, intTree, ssData)`. -/
def resolveCoord (c : Int) (strand : String) (cType : Option String)
    (intTree : IntervalTree) (d : SSMap) : Option SSMap :=
  if (mapLookup d c).isSome then some d else ssCorrrect c strand cType intTree d

/-- Line 259 of the source: expected `(c1Type, c2Type)` from the record
strand. -/
def juncTypes (strand : String) : Option String × Option String :=
  if strand = "+" then (some "donor", some "acceptor")
  else (some "acceptor", some "donor")

/-- The loop state of the per-read junction loop in `correctReads`:
the (threaded) `ssData` table, the accumulated `newJuncs`, the per-junction
`ssTypes` pair (reassigned each iteration in the source), the `ssStrands`
set and the `novelSS` flag. -/
structure JState where
  ssData : SSMap
  newJuncs : List (Int × Int)
  ssTypes : List (Option String)
  ssStrands : List String
  novelSS : Bool
deriving DecidableEq, Repr

/-- One iteration of the junction loop of `correctReads` (source lines
266-286): guarded resolution of both junction coordinates, then reading the
canonical coordinate / type / strand of each through `ssCorr`, flagging
`novelSS` when a type is `None` or the two types are equal, and appending
the corrected pair to `newJuncs`. -/
def stepJunc (strand : String) (c1Type c2Type : Option String)
    (intTree : IntervalTree) (s : JState) (x : Int × Int) : Option JState :=
  match resolveCoord x.1 strand c1Type intTree s.ssData with
  | none => none
  | some d1 =>
    match resolveCoord x.2 strand c2Type intTree d1 with
    | none => none
    | some d2 =>
      match mapLookup d2 x.1, mapLookup d2 x.2 with
      | some e1, some e2 =>
          some { ssData := d2,
                 newJuncs := s.newJuncs ++ [(e1.ssCorr.coord, e2.ssCorr.coord)],
                 ssTypes := [e1.ssCorr.ssType, e2.ssCorr.ssType],
                 ssStrands := setAdd (setAdd s.ssStrands e1.ssCorr.strand) e2.ssCorr.strand,
                 novelSS := s.novelSS ||
                   decide (e1.ssCorr.ssType = none ∨ e2.ssCorr.ssType = none ∨
                     e1.ssCorr.ssType = e2.ssCorr.ssType) }
      | _, _ => none

/-- The whole junction loop of `correctReads`, started from the empty
accumulators of source lines 261-264. -/
def runJuncs (juncs : List (Int × Int)) (strand : String)
    (c1Type c2Type : Option String) (intTree : IntervalTree) (d : SSMap) :
    Option JState :=
  juncs.foldlM (stepJunc strand c1Type c2Type intTree) ⟨d, [], [], [], false⟩

/-- One input line of the bed12 alignment file, as parsed by
`BED12.getLine` (`endPos` stands for the Python attribute `end`). -/
structure BED12R where
  chrom : String
  start : Int
  endPos : Int
  name : String
  score : Int
  strand : String
  c1 : Int
  c2 : Int
  color : String
  exons : Int
  sizes : List Int
  starts : List Int
deriving DecidableEq, Repr

/-- The record printed by `correctReads`: the pass-through fields, the
(possibly strand-corrected) strand, the rebuilt `blocks`/`sizes`/`starts`,
and `novel = true` exactly when the record is printed to the
`_inconsistent.bed` partition (`false`: the `_corrected.bed` partition). -/
structure ReadOut where
  chrom : String
  start : Int
  endPos : Int
  name : String
  score : Int
  strand : String
  c1 : Int
  c2 : Int
  color : String
  blocks : Nat
  sizes : List Int
  starts : List Int
  novel : Bool
deriving DecidableEq, Repr

/-- The per-record body of `correctReads` (source lines 256-310): extract
junctions, resolve them, rebuild blocks from the corrected junctions, apply
the strand-correction block and the zero-size-block check, and emit the
record (`novel` selects the output partition).  Returns the emitted record
together with the updated `ssData` table; `none` models an uncaught Python
exception. -/
def processRead (b : BED12R) (intTree : IntervalTree) (d : SSMap)
    (correctStrand : Bool) : Option (ReadOut × SSMap) :=
  match runJuncs (bed12toJuncs b.start b.sizes b.starts) b.strand
      (juncTypes b.strand).1 (juncTypes b.strand).2 intTree d with
  | none => none
  | some s =>
    let bss := juncsToBed12 b.start b.endPos s.newJuncs
    let p : String × Bool :=
      if correctStrand then
        (if s.ssStrands.length > 1 then (b.strand, true)
         else if s.ssStrands.length = 1 then (s.ssStrands.headD b.strand, s.novelSS)
         else (b.strand, s.novelSS))
      else (b.strand, s.novelSS)
    match minList bss.2.1 with
    | none => none
    | some minSize =>
      some ({ chrom := b.chrom, start := b.start, endPos := b.endPos,
              name := b.name, score := b.score, strand := p.1,
              c1 := b.c1, c2 := b.c2, color := b.color,
              blocks := bss.1, sizes := bss.2.1, starts := bss.2.2,
              novel := if minSize = 0 then true else p.2 }, s.ssData)

/-- One line of the annotated-junction input consumed by
`buildIntervalTree`: the two junction coordinates `cols[1]`, `cols[2]`, the
annotation label `cols[3]` and the strand `cols[-1]`. -/
structure Anno where
  c1 : Int
  c2 : Int
  annoType : String
  strand : String
deriving DecidableEq, Repr

/-- Adding one coordinate of an annotated junction in `buildIntervalTree`:
a new coordinate gets a self-canonical `SS` with the wiggle window
`[c - wiggle, c + wiggle] → c` added to the tree; a repeated coordinate only
unions the annotation label into its `support` set. -/
def addSite (wiggle : Int) (strand : String) (sType : Option String)
    (annoType : String) (c : Int) (st : IntervalTree × SSMap) :
    IntervalTree × SSMap :=
  match mapLookup st.2 c with
  | none =>
      let core : SSCore := ⟨c, strand, sType⟩
      (st.1 ++ [⟨c - wiggle, c + wiggle, c⟩], mapUpdate st.2 c ⟨core, [annoType], core⟩)
  | some ss =>
      (st.1, mapUpdate st.2 c { ss with support := setAdd ss.support annoType })

/-- Processing one annotation line in `buildIntervalTree`: add `c1` (donor
on `+`, acceptor otherwise) and then `c2` (the complementary type). -/
def buildStep (wiggle : Int) (st : IntervalTree × SSMap) (a : Anno) :
    IntervalTree × SSMap :=
  let c1Type : Option String := if a.strand = "+" then some "donor" else some "acceptor"
  let c2Type : Option String := if a.strand = "+" then some "acceptor" else some "donor"
  addSite wiggle a.strand c2Type a.annoType a.c2
    (addSite wiggle a.strand c1Type a.annoType a.c1 st)

/-- `buildIntervalTree(juncs, wiggle)` from the source: fold the annotated
junction records over an empty tree and table. -/
def buildIntervalTree (juncs : List Anno) (wiggle : Int) :
    IntervalTree × SSMap :=
  juncs.foldl (buildStep wiggle) ([], [])

/-- Every window payload of the tree is a key of the site table (the safety
invariant behind the `ssData[cCorr]` lookup in `ssCorrrect`). -/
def treeMapInv (t : IntervalTree) (d : SSMap) : Bool :=
  t.all (fun iv => (mapLookup d iv.val).isSome)

/-- A junction list whose coordinates are strictly increasing inside each
pair, non-overlapping and non-decreasing across pairs, and contained in
`[lo, hi]`. -/
def validJuncs (lo hi : Int) : List (Int × Int) → Bool
  | [] => true
  | (a, b) :: rest =>
      decide (lo ≤ a) && decide (a < b) && decide (b ≤ hi) && validJuncs b hi rest

/-! ## Concrete fixtures

Small concrete indexes, tables and reads used by the witness and
counterexample theorems below.  `egTree`/`egMap` is the index built from the
single annotated `+`-strand junction `(100, 200)` with wiggle 5;
`egMapM` is the table for the same junction annotated on the `-` strand. -/

/-- Windows of the index for the annotated junction `(100, 200)`, wiggle 5
(the window bounds are strand-independent). -/
def egTree : IntervalTree := [⟨95, 105, 100⟩, ⟨195, 205, 200⟩]

/-- Site table for the annotated `+`-strand junction `(100, 200)`. -/
def egMap : SSMap :=
  [(100, ⟨⟨100, "+", some "donor"⟩, ["a"], ⟨100, "+", some "donor"⟩⟩),
   (200, ⟨⟨200, "+", some "acceptor"⟩, ["a"], ⟨200, "+", some "acceptor"⟩⟩)]

/-- Site table for the annotated `-`-strand junction `(100, 200)`. -/
def egMapM : SSMap :=
  [(100, ⟨⟨100, "-", some "acceptor"⟩, ["a"], ⟨100, "-", some "acceptor"⟩⟩),
   (200, ⟨⟨200, "-", some "donor"⟩, ["a"], ⟨200, "-", some "donor"⟩⟩)]

/-- A `+`-strand read spanning `[0, 500]` with junctions `(103, 197)` (which
corrects to `(100, 200)`) and `(300, 400)` (novel on both ends). -/
def egRead : BED12R :=
  ⟨"c", 0, 500, "r", 0, "+", 0, 500, "0", 3, [103, 103, 100], [0, 197, 400]⟩

/-- The junction-loop state after processing the junction `(103, 197)` of a
`+`-strand read against `egTree`/`egMap`. -/
def egS : JState :=
  ⟨egMap ++
     [(103, ⟨⟨103, "+", some "donor"⟩, [], ⟨100, "+", some "donor"⟩⟩),
      (197, ⟨⟨197, "+", some "acceptor"⟩, [], ⟨200, "+", some "acceptor"⟩⟩)],
   [(100, 200)], [some "donor", some "acceptor"], ["+"], false⟩

/-- The junction-loop state after additionally processing the novel junction
`(300, 400)`. -/
def egS2 : JState :=
  ⟨egS.ssData ++
     [(300, ⟨⟨300, "+", none⟩, [], ⟨300, "+", none⟩⟩),
      (400, ⟨⟨400, "+", none⟩, [], ⟨400, "+", none⟩⟩)],
   [(100, 200), (300, 400)], [none, none], ["+"], true⟩

/-- A `+`-strand read `[100, 198]` with junction `(103, 197)`: the corrected
junction `(100, 200)` rebuilds to block sizes `[0, -2]`. -/
def egRead5 : BED12R :=
  ⟨"c", 100, 198, "r", 0, "+", 100, 198, "0", 2, [3, 1], [0, 97]⟩

/-- A `+`-strand read `[100, 200]` with junction `(103, 197)`: the corrected
junction `(100, 200)` rebuilds to block sizes `[0, 0]`. -/
def egRead5w : BED12R :=
  ⟨"c", 100, 200, "r", 0, "+", 100, 200, "0", 2, [3, 2], [0, 97]⟩

/-- A read declared `+` whose single junction `(103, 197)` resolves against
the `-`-strand annotated sites of `egMapM`. -/
def egReadP : BED12R :=
  ⟨"c", 0, 300, "r", 0, "+", 0, 300, "0", 2, [103, 103], [0, 197]⟩

/-- The junction-loop state for `egReadP` against `egTree`/`egMapM`: both
endpoints resolve to `-`-strand annotated sites. -/
def egSM : JState :=
  ⟨egMapM ++
     [(103, ⟨⟨103, "+", some "donor"⟩, [], ⟨100, "-", some "acceptor"⟩⟩),
      (197, ⟨⟨197, "+", some "acceptor"⟩, [], ⟨200, "-", some "donor"⟩⟩)],
   [(100, 200)], [some "acceptor", some "donor"], ["-"], false⟩

/-! ## Lemmas on the coordinate converter -/

theorem juncsLoop_fst_length (start endP : Int) (r : List (Int × Int)) (p : Int) :
    (juncsLoop start endP p r).1.length = r.length + 1 := by
  induction r generalizing p with
  | nil => simp [juncsLoop]
  | cons hd tl ih =>
      obtain ⟨a, b⟩ := hd
      simp [juncsLoop, ih]

theorem juncsLoop_snd_length (start endP : Int) (r : List (Int × Int)) (p : Int) :
    (juncsLoop start endP p r).2.length = r.length + 1 := by
  induction r generalizing p with
  | nil => simp [juncsLoop]
  | cons hd tl ih =>
      obtain ⟨a, b⟩ := hd
      simp [juncsLoop, ih]

theorem juncsLoop_snd_shape (start endP : Int) (r : List (Int × Int)) (p : Int) :
    ∃ t, (juncsLoop start endP p r).2 = (p - start) :: t := by
  cases r with
  | nil => exact ⟨[], rfl⟩
  | cons hd tl =>
      obtain ⟨a, b⟩ := hd
      exact ⟨_, rfl⟩

theorem bed12toJuncs_juncsLoop (start endP : Int) (r : List (Int × Int)) (p : Int) :
    bed12toJuncs start (juncsLoop start endP p r).1 (juncsLoop start endP p r).2 = r := by
  induction r generalizing p with
  | nil => simp [juncsLoop, bed12toJuncs]
  | cons hd tl ih =>
      obtain ⟨a, b⟩ := hd
      obtain ⟨t, ht⟩ := juncsLoop_snd_shape start endP tl b
      simp only [juncsLoop, ht]
      simp only [bed12toJuncs, ← ht, ih]
      have h1 : start + (p - start) + (a - (p - start + start)) = a := by ring
      have h2 : start + (b - start) = b := by ring
      rw [h1, h2]

/-! ## Claims on the coordinate converter -/

/-- Claim C1: for every integer `start` and `end` and every list `J` of
junction pairs whose coordinates are strictly increasing, non-overlapping
and contained in `[start, end]`, converting `J` to bed12 blocks with
`juncsToBed12(start, end, J)` and converting the resulting block sizes and
starts back with `bed12toJuncs` yields exactly `J`. -/
theorem roundTrip_bed12toJuncs_juncsToBed12 (start endP : Int)
    (J : List (Int × Int)) (h : validJuncs start endP J = true) :
    bed12toJuncs start (juncsToBed12 start endP J).2.1
      (juncsToBed12 start endP J).2.2 = J := by
  cases J with
  | nil => rfl
  | cons hd tl =>
      obtain ⟨a0, b0⟩ := hd
      have ha : start ≤ a0 := by
        simp only [validJuncs, Bool.and_eq_true, decide_eq_true_eq] at h
        exact h.1.1.1
      have e1 : (juncsToBed12 start endP ((a0, b0) :: tl)).2.1 =
          ((start - a0).natAbs : Int) :: (juncsLoop start endP b0 tl).1 := rfl
      have e2 : (juncsToBed12 start endP ((a0, b0) :: tl)).2.2 =
          (0 : Int) :: (juncsLoop start endP b0 tl).2 := rfl
      rw [e1, e2]
      obtain ⟨t, ht⟩ := juncsLoop_snd_shape start endP tl b0
      rw [ht]
      simp only [bed12toJuncs, ← ht, bed12toJuncs_juncsLoop]
      have h1 : start + 0 + ((start - a0).natAbs : Int) = a0 := by omega
      have h2 : start + (b0 - start) = b0 := by ring
      rw [h1, h2]

/-- Witness for C1 at a concrete input: `start = 10`, `end = 100`,
`J = [(20, 30), (50, 60)]`. -/
theorem roundTrip_bed12toJuncs_juncsToBed12_witness :
    validJuncs 10 100 [(20, 30), (50, 60)] = true ∧
    bed12toJuncs 10 (juncsToBed12 10 100 [(20, 30), (50, 60)]).2.1
      (juncsToBed12 10 100 [(20, 30), (50, 60)]).2.2 = [(20, 30), (50, 60)] :=
  ⟨by decide, roundTrip_bed12toJuncs_juncsToBed12 10 100 [(20, 30), (50, 60)] (by decide)⟩

/-- Claim C10: `juncsToBed12(start, end, coords)` always returns
`(n, sizes, starts)` with `n = len(coords) + 1`,
`len(sizes) = len(starts) = n` and `starts[0] = 0`; in particular an empty
junction list yields exactly one block of size `end - start` at offset 0. -/
theorem juncsToBed12_shape (start endP : Int) (coords : List (Int × Int)) :
    (juncsToBed12 start endP coords).1 = coords.length + 1 ∧
    (juncsToBed12 start endP coords).2.1.length = coords.length + 1 ∧
    (juncsToBed12 start endP coords).2.2.length = coords.length + 1 ∧
    (juncsToBed12 start endP coords).2.2.head? = some 0 ∧
    juncsToBed12 start endP [] = (1, [endP - start], [0]) := by
  cases coords with
  | nil => exact ⟨rfl, rfl, rfl, rfl, rfl⟩
  | cons hd tl =>
      obtain ⟨a0, b0⟩ := hd
      refine ⟨?_, ?_, ?_, rfl, rfl⟩
      · show ((0 : Int) :: (juncsLoop start endP b0 tl).2).length = tl.length + 1 + 1
        simp [juncsLoop_snd_length]
      · show (((start - a0).natAbs : Int) :: (juncsLoop start endP b0 tl).1).length
            = tl.length + 1 + 1
        simp [juncsLoop_fst_length]
      · show ((0 : Int) :: (juncsLoop start endP b0 tl).2).length = tl.length + 1 + 1
        simp [juncsLoop_snd_length]

/-! ## Lemmas on the site table and the index invariant -/

theorem mapLookup_update (d : SSMap) (k : Int) (v : SS) (y : Int) :
    mapLookup (mapUpdate d k v) y = if k = y then some v else mapLookup d y := by
  induction d with
  | nil =>
      simp only [mapUpdate, mapLookup]
  | cons hd tl ih =>
      obtain ⟨k0, v0⟩ := hd
      by_cases h : k0 = k
      · subst h
        by_cases h2 : k0 = y <;> simp [mapUpdate, mapLookup, h2]
      · by_cases h2 : k0 = y
        · subst h2
          simp [mapUpdate, mapLookup, h]
          rw [if_neg (fun hh => h hh.symm)]
        · simp [mapUpdate, mapLookup, h, h2, ih]

theorem ssCorrrect_eq_update (c : Int) (strand : String) (sType : Option String)
    (tree : IntervalTree) (d d1 : SSMap)
    (h : ssCorrrect c strand sType tree d = some d1) :
    ∃ e : SS, d1 = mapUpdate d c e := by
  unfold ssCorrrect at h
  simp only [] at h
  split at h
  · exact ⟨_, (Option.some_inj.mp h).symm⟩
  · split at h
    · exact ⟨_, (Option.some_inj.mp h).symm⟩
    · split at h
      · exact Option.noConfusion h
      · exact ⟨_, (Option.some_inj.mp h).symm⟩

theorem treeMapInv_update (t : IntervalTree) (d : SSMap) (k : Int) (v : SS)
    (h : treeMapInv t d = true) : treeMapInv t (mapUpdate d k v) = true := by
  simp only [treeMapInv, List.all_eq_true, decide_eq_true_eq] at h ⊢
  intro iv hiv
  rw [mapLookup_update]
  split
  · rfl
  · exact h iv hiv

theorem getD_mem_of_lt {α : Type} (l : List α) (n : Nat) (a : α)
    (h : n < l.length) : l.getD n a ∈ l := by
  have hg : l[n]? = some l[n] := List.getElem?_eq_getElem h
  have hm : l[n] ∈ l := List.getElem_mem h
  have he : l.getD n a = l[n] := by simp [List.getD, hg]
  rw [he]
  exact hm

theorem foldlMin_mem (l : List Nat) (acc : Nat) : l.foldl min acc ∈ acc :: l := by
  induction l generalizing acc with
  | nil => simp
  | cons b bs ih =>
      have h := ih (min acc b)
      simp only [List.foldl_cons]
      rcases List.mem_cons.mp h with h1 | h1
      · rcases Nat.le_total acc b with hle | hle
        · rw [min_eq_left hle] at h1 ⊢
          rw [h1]
          exact List.mem_cons_self _ _
        · rw [min_eq_right hle] at h1 ⊢
          rw [h1]
          exact List.mem_cons_of_mem _ (List.mem_cons_self _ _)
      · exact List.mem_cons_of_mem _ (List.mem_cons_of_mem _ h1)

theorem listMinNat_mem (a : Nat) (as : List Nat) : listMinNat (a :: as) ∈ a :: as :=
  foldlMin_mem as a

theorem treeSearch_subset (t : IntervalTree) (s e : Int) (iv : Window)
    (h : iv ∈ treeSearch t s e) : iv ∈ t :=
  List.mem_of_mem_filter h

/-- Under the invariant, `ssCorrrect` always succeeds (the `ssData[cCorr]`
lookup in its unique-nearest-hit branch finds an entry) and preserves the
invariant: the resolver inserts into the table but never into the tree. -/
theorem ssCorrrect_total (c : Int) (strand : String) (sType : Option String)
    (tree : IntervalTree) (d : SSMap) (hinv : treeMapInv tree d = true) :
    ∃ d1, ssCorrrect c strand sType tree d = some d1 ∧ treeMapInv tree d1 = true := by
  unfold ssCorrrect
  rcases htr : treeSearch tree c c with _ | ⟨hit, hs⟩
  · simp only []
    rw [if_pos (by simp)]
    exact ⟨_, rfl, treeMapInv_update _ _ _ _ hinv⟩
  · simp only []
    rw [if_neg (by simp)]
    by_cases hcnt : (((hit :: hs).map (fun x => (c - x.val).natAbs)).count
        (listMinNat ((hit :: hs).map (fun x => (c - x.val).natAbs)))) > 1
    · rw [if_pos hcnt]
      exact ⟨_, rfl, treeMapInv_update _ _ _ _ hinv⟩
    · rw [if_neg hcnt]
      set ds := (hit :: hs).map (fun x => (c - x.val).natAbs) with hds
      have hmm : listMinNat ds ∈ ds := by
        rw [hds]
        simp only [List.map_cons]
        exact listMinNat_mem _ _
      have hidx : ds.indexOf (listMinNat ds) < ds.length :=
        List.indexOf_lt_length.mpr hmm
      have hlt : ds.indexOf (listMinNat ds) < (hit :: hs).length := by
        rw [hds, List.length_map] at hidx
        exact hidx
      have hmem : (hit :: hs).getD (ds.indexOf (listMinNat ds)) ⟨0, 0, 0⟩ ∈ hit :: hs :=
        getD_mem_of_lt _ _ _ hlt
      have hmem2 : (hit :: hs).getD (ds.indexOf (listMinNat ds)) ⟨0, 0, 0⟩ ∈ tree :=
        treeSearch_subset tree c c _ (htr ▸ hmem)
      have hsome : (mapLookup d
          (((hit :: hs).getD (ds.indexOf (listMinNat ds)) ⟨0, 0, 0⟩).val)).isSome = true := by
        simp only [treeMapInv, List.all_eq_true, decide_eq_true_eq] at hinv
        exact hinv _ hmem2
      rcases ho : mapLookup d
          (((hit :: hs).getD (ds.indexOf (listMinNat ds)) ⟨0, 0, 0⟩).val) with _ | canon
      · rw [ho] at hsome
        simp at hsome
      · exact ⟨_, rfl, treeMapInv_update _ _ _ _ hinv⟩

theorem addSite_inv (w : Int) (strand : String) (sType : Option String)
    (annoType : String) (c : Int) (st : IntervalTree × SSMap)
    (h : treeMapInv st.1 st.2 = true) :
    treeMapInv (addSite w strand sType annoType c st).1
      (addSite w strand sType annoType c st).2 = true := by
  unfold addSite
  rcases ho : mapLookup st.2 c with _ | ss
  · simp only []
    simp only [treeMapInv, List.all_eq_true, decide_eq_true_eq] at h ⊢
    intro iv hiv
    rcases List.mem_append.mp hiv with h1 | h1
    · rw [mapLookup_update]
      split
      · rfl
      · exact h iv h1
    · have hiv2 : iv = ⟨c - w, c + w, c⟩ := by simpa using h1
      subst hiv2
      rw [mapLookup_update]
      simp
  · simp only []
    exact treeMapInv_update _ _ _ _ h

theorem buildFold_inv (w : Int) (l : List Anno) (st : IntervalTree × SSMap)
    (h : treeMapInv st.1 st.2 = true) :
    treeMapInv (l.foldl (buildStep w) st).1 (l.foldl (buildStep w) st).2 = true := by
  induction l generalizing st with
  | nil => simpa using h
  | cons a l ih =>
      simp only [List.foldl_cons]
      apply ih
      unfold buildStep
      simp only []
      exact addSite_inv _ _ _ _ _ _ (addSite_inv _ _ _ _ _ _ h)

theorem buildIntervalTree_inv (annos : List Anno) (w : Int) :
    treeMapInv (buildIntervalTree annos w).1 (buildIntervalTree annos w).2 = true :=
  buildFold_inv w annos ([], []) rfl

/-! ## Claims on the index and the resolver -/

/-- Claim C9: index construction makes every window payload of the interval
tree a key of the site table, and the resolver keeps it that way — it
inserts into the table but never adds windows to the tree — so the direct
lookup `ssData[cCorr]` in `ssCorrrect` for a unique nearest hit always finds
an entry and the resolver never fails on a missing key. -/
theorem indexPayloadsAlwaysResolvable (annos : List Anno) (w : Int)
    (tree : IntervalTree) (d : SSMap) (c : Int) (strand : String)
    (sType : Option String) (hinv : treeMapInv tree d = true) :
    treeMapInv (buildIntervalTree annos w).1 (buildIntervalTree annos w).2 = true ∧
    ∃ d1, ssCorrrect c strand sType tree d = some d1 ∧ treeMapInv tree d1 = true :=
  ⟨buildIntervalTree_inv annos w, ssCorrrect_total c strand sType tree d hinv⟩

/-- Witness for C9 at a concrete index (one annotated junction, wiggle 5)
and a concrete resolution. -/
theorem indexPayloadsAlwaysResolvable_witness :
    treeMapInv (buildIntervalTree [⟨100, 200, "a", "+"⟩] 5).1
      (buildIntervalTree [⟨100, 200, "a", "+"⟩] 5).2 = true ∧
    ∃ d1, ssCorrrect 103 "+" (some "donor")
        (buildIntervalTree [⟨100, 200, "a", "+"⟩] 5).1
        (buildIntervalTree [⟨100, 200, "a", "+"⟩] 5).2 = some d1 ∧
      treeMapInv (buildIntervalTree [⟨100, 200, "a", "+"⟩] 5).1 d1 = true :=
  indexPayloadsAlwaysResolvable [⟨100, 200, "a", "+"⟩] 5
    (buildIntervalTree [⟨100, 200, "a", "+"⟩] 5).1
    (buildIntervalTree [⟨100, 200, "a", "+"⟩] 5).2 103 "+" (some "donor") (by decide)

/-- Claim C8: the per-run site table memoizes resolution.  The table is
consulted before resolving, so after one guarded resolution of a coordinate
the coordinate is present in the table, and any later guarded resolution of
the same coordinate against the unchanged index — with whatever strand or
expected type it arrives — returns the table unchanged: the later occurrence
observes exactly the already-stored canonical coordinate and site type. -/
theorem resolveCoord_memoized (c : Int) (strand : String) (sType : Option String)
    (tree : IntervalTree) (d d1 : SSMap)
    (h : resolveCoord c strand sType tree d = some d1) :
    (mapLookup d1 c).isSome = true ∧
    ∀ strand2 sType2, resolveCoord c strand2 sType2 tree d1 = some d1 := by
  unfold resolveCoord at h
  by_cases hc : (mapLookup d c).isSome = true
  · rw [if_pos hc] at h
    have hd : d = d1 := Option.some_inj.mp h
    subst hd
    refine ⟨hc, ?_⟩
    intro strand2 sType2
    unfold resolveCoord
    rw [if_pos hc]
  · rw [if_neg hc] at h
    obtain ⟨e, he⟩ := ssCorrrect_eq_update c strand sType tree d d1 h
    have hsome : (mapLookup d1 c).isSome = true := by
      rw [he, mapLookup_update, if_pos rfl]
      rfl
    refine ⟨hsome, ?_⟩
    intro strand2 sType2
    unfold resolveCoord
    rw [if_pos hsome]

/-- Witness for C8: a novel coordinate resolved once against an empty index
is stored, and a second guarded resolution (with a different strand and
expected type) leaves the table unchanged. -/
theorem resolveCoord_memoized_witness :
    ((mapLookup [((7 : Int), (⟨⟨7, "+", none⟩, [], ⟨7, "+", none⟩⟩ : SS))] 7).isSome = true) ∧
    ∀ strand2 sType2, resolveCoord 7 strand2 sType2 []
        [(7, ⟨⟨7, "+", none⟩, [], ⟨7, "+", none⟩⟩)] =
      some [(7, ⟨⟨7, "+", none⟩, [], ⟨7, "+", none⟩⟩)] :=
  resolveCoord_memoized 7 "+" (some "donor") [] []
    [(7, ⟨⟨7, "+", none⟩, [], ⟨7, "+", none⟩⟩)] (by decide)

/-- Claim C3: when the index query for an observed coordinate returns one or
more window hits, a tie for the minimal absolute distance makes `ssCorrrect`
store a new splice site at the observed coordinate with `siteType = None`
and `ssCorr` pointing at itself — never one of the tied candidates — while a
unique closest candidate makes it store a site whose `ssCorr` carries the
fields of the existing table entry at the candidate's coordinate; in both
cases every other table entry is left untouched. -/
theorem ssCorrrect_tie_and_unique (c : Int) (strand : String)
    (sType : Option String) (tree : IntervalTree) (d : SSMap)
    (hne : treeSearch tree c c ≠ []) :
    (((treeSearch tree c c).map (fun x => (c - x.val).natAbs)).count
        (listMinNat ((treeSearch tree c c).map (fun x => (c - x.val).natAbs))) > 1 →
      ∃ d1, ssCorrrect c strand sType tree d = some d1 ∧
        mapLookup d1 c = some ⟨⟨c, strand, none⟩, [], ⟨c, strand, none⟩⟩ ∧
        ∀ y, y ≠ c → mapLookup d1 y = mapLookup d y) ∧
    (((treeSearch tree c c).map (fun x => (c - x.val).natAbs)).count
        (listMinNat ((treeSearch tree c c).map (fun x => (c - x.val).natAbs))) = 1 →
      ∀ canon, mapLookup d
          (((treeSearch tree c c).getD
            (((treeSearch tree c c).map (fun x => (c - x.val).natAbs)).indexOf
              (listMinNat ((treeSearch tree c c).map (fun x => (c - x.val).natAbs))))
            ⟨0, 0, 0⟩).val) = some canon →
        ∃ d1, ssCorrrect c strand sType tree d = some d1 ∧
          mapLookup d1 c = some ⟨⟨c, strand, sType⟩, [], canon.core⟩ ∧
          ∀ y, y ≠ c → mapLookup d1 y = mapLookup d y) := by
  have hlen : ¬ (treeSearch tree c c).length < 1 := by
    simpa [Nat.lt_one_iff, List.length_eq_zero] using hne
  constructor
  · intro hcnt
    refine ⟨mapUpdate d c ⟨⟨c, strand, none⟩, [], ⟨c, strand, none⟩⟩, ?_, ?_, ?_⟩
    · unfold ssCorrrect
      simp only []
      rw [if_neg hlen, if_pos hcnt]
    · rw [mapLookup_update, if_pos rfl]
    · intro y hy
      rw [mapLookup_update, if_neg (fun hh => hy hh.symm)]
  · intro hcnt canon hcanon
    refine ⟨mapUpdate d c ⟨⟨c, strand, sType⟩, [], canon.core⟩, ?_, ?_, ?_⟩
    · unfold ssCorrrect
      simp only []
      rw [if_neg hlen, if_neg (by omega), hcanon]
    · rw [mapLookup_update, if_pos rfl]
    · intro y hy
      rw [mapLookup_update, if_neg (fun hh => hy hh.symm)]

/-- Witness for C3: two annotated sites at 100 and 104 whose windows both
contain the observed coordinate 102, equidistant from it (a tie): the stored
site is ambiguous and self-canonical, and the rest of the table is
unchanged. -/
theorem ssCorrrect_tie_and_unique_witness :
    ∃ d1, ssCorrrect 102 "+" (some "donor")
        [⟨95, 105, 100⟩, ⟨99, 109, 104⟩]
        [(100, ⟨⟨100, "+", some "donor"⟩, ["a"], ⟨100, "+", some "donor"⟩⟩),
         (104, ⟨⟨104, "+", some "donor"⟩, ["a"], ⟨104, "+", some "donor"⟩⟩)] = some d1 ∧
      mapLookup d1 102 = some ⟨⟨102, "+", none⟩, [], ⟨102, "+", none⟩⟩ ∧
      ∀ y, y ≠ 102 → mapLookup d1 y =
        mapLookup [(100, ⟨⟨100, "+", some "donor"⟩, ["a"], ⟨100, "+", some "donor"⟩⟩),
          (104, ⟨⟨104, "+", some "donor"⟩, ["a"], ⟨104, "+", some "donor"⟩⟩)] y :=
  (ssCorrrect_tie_and_unique 102 "+" (some "donor")
    [⟨95, 105, 100⟩, ⟨99, 109, 104⟩]
    [(100, ⟨⟨100, "+", some "donor"⟩, ["a"], ⟨100, "+", some "donor"⟩⟩),
     (104, ⟨⟨104, "+", some "donor"⟩, ["a"], ⟨104, "+", some "donor"⟩⟩)]
    (by decide)).1 (by decide)

theorem build_single (s w : Int) (label : String) :
    buildIntervalTree [⟨s, s, label, "+"⟩] w =
      ([⟨s - w, s + w, s⟩],
       [(s, ⟨⟨s, "+", some "donor"⟩, [label], ⟨s, "+", some "donor"⟩⟩)]) := by
  unfold buildIntervalTree buildStep addSite
  simp [mapLookup, mapUpdate, setAdd]

/-- Claim C7: for a non-negative wiggle `w` and an index holding a single
annotated site at coordinate `s`, an observed coordinate at absolute
distance exactly `w` from `s` resolves to canonical coordinate `s`, while a
coordinate at distance `w + 1` is not contained in the site's window — the
query returns no hits — and is stored as a novel self-canonical site with
`siteType = None`. -/
theorem window_boundary (w s c : Int) (hw : 0 ≤ w) (label strand : String)
    (sType : Option String) :
    ((c - s).natAbs = w.toNat →
      ∃ d1 e, ssCorrrect c strand sType (buildIntervalTree [⟨s, s, label, "+"⟩] w).1
          (buildIntervalTree [⟨s, s, label, "+"⟩] w).2 = some d1 ∧
        mapLookup d1 c = some e ∧ e.ssCorr.coord = s) ∧
    ((c - s).natAbs = w.toNat + 1 →
      treeSearch (buildIntervalTree [⟨s, s, label, "+"⟩] w).1 c c = [] ∧
      ∃ d1, ssCorrrect c strand sType (buildIntervalTree [⟨s, s, label, "+"⟩] w).1
          (buildIntervalTree [⟨s, s, label, "+"⟩] w).2 = some d1 ∧
        mapLookup d1 c = some ⟨⟨c, strand, none⟩, [], ⟨c, strand, none⟩⟩) := by
  rw [build_single]
  constructor
  · intro hdist
    have h1 : s - w ≤ c := by omega
    have h2 : c ≤ s + w := by omega
    have hsearch : treeSearch [⟨s - w, s + w, s⟩] c c = [⟨s - w, s + w, s⟩] := by
      simp [treeSearch, List.filter, h1, h2]
    have he : ssCorrrect c strand sType [⟨s - w, s + w, s⟩]
        [(s, ⟨⟨s, "+", some "donor"⟩, [label], ⟨s, "+", some "donor"⟩⟩)] =
        some (mapUpdate [(s, ⟨⟨s, "+", some "donor"⟩, [label], ⟨s, "+", some "donor"⟩⟩)]
          c ⟨⟨c, strand, sType⟩, [], ⟨s, "+", some "donor"⟩⟩) := by
      unfold ssCorrrect
      rw [hsearch]
      simp [listMinNat, mapLookup]
    exact ⟨_, ⟨⟨c, strand, sType⟩, [], ⟨s, "+", some "donor"⟩⟩, he,
      by rw [mapLookup_update, if_pos rfl], rfl⟩
  · intro hdist
    have hor : c < s - w ∨ s + w < c := by omega
    have hcond : (decide (s - w ≤ c) && decide (c ≤ s + w)) = false := by
      rcases hor with h | h
      · have hd : decide (s - w ≤ c) = false := decide_eq_false (by omega)
        rw [hd, Bool.false_and]
      · have hd : decide (c ≤ s + w) = false := decide_eq_false (by omega)
        rw [hd, Bool.and_false]
    have hsearch : treeSearch [⟨s - w, s + w, s⟩] c c = [] := by
      simp only [treeSearch, List.filter]
      rw [hcond]
    refine ⟨hsearch, ?_⟩
    have he : ssCorrrect c strand sType [⟨s - w, s + w, s⟩]
        [(s, ⟨⟨s, "+", some "donor"⟩, [label], ⟨s, "+", some "donor"⟩⟩)] =
        some (mapUpdate [(s, ⟨⟨s, "+", some "donor"⟩, [label], ⟨s, "+", some "donor"⟩⟩)]
          c ⟨⟨c, strand, none⟩, [], ⟨c, strand, none⟩⟩) := by
      unfold ssCorrrect
      rw [hsearch]
      simp
    exact ⟨_, he, by rw [mapLookup_update, if_pos rfl]⟩

/-- Witness for C7: wiggle 5, annotated site at 100; the coordinate 105
(distance exactly 5) resolves to canonical coordinate 100. -/
theorem window_boundary_witness :
    ∃ d1 e, ssCorrrect 105 "+" (some "donor")
        (buildIntervalTree [⟨100, 100, "a", "+"⟩] 5).1
        (buildIntervalTree [⟨100, 100, "a", "+"⟩] 5).2 = some d1 ∧
      mapLookup d1 105 = some e ∧ e.ssCorr.coord = 100 :=
  (window_boundary 5 100 105 (by decide) "a" "+" (some "donor")).1 (by decide)

/-! ## Lemmas on the read-correction pipeline -/

/-- Eliminating a successful `processRead`: the junction loop succeeded, the
block rebuild from the corrected junctions is what the emitted record
carries, and strand / partition follow the strand-correction block and the
zero-size-block check. -/
theorem processRead_some_elim (b : BED12R) (tree : IntervalTree) (d : SSMap)
    (cs : Bool) (out : ReadOut) (d2 : SSMap)
    (h : processRead b tree d cs = some (out, d2)) :
    ∃ s minSize,
      runJuncs (bed12toJuncs b.start b.sizes b.starts) b.strand
        (juncTypes b.strand).1 (juncTypes b.strand).2 tree d = some s ∧
      minList (juncsToBed12 b.start b.endPos s.newJuncs).2.1 = some minSize ∧
      d2 = s.ssData ∧
      out = { chrom := b.chrom, start := b.start, endPos := b.endPos,
              name := b.name, score := b.score,
              strand := (if cs then
                  (if s.ssStrands.length > 1 then (b.strand, true)
                   else if s.ssStrands.length = 1 then (s.ssStrands.headD b.strand, s.novelSS)
                   else (b.strand, s.novelSS))
                else (b.strand, s.novelSS)).1,
              c1 := b.c1, c2 := b.c2, color := b.color,
              blocks := (juncsToBed12 b.start b.endPos s.newJuncs).1,
              sizes := (juncsToBed12 b.start b.endPos s.newJuncs).2.1,
              starts := (juncsToBed12 b.start b.endPos s.newJuncs).2.2,
              novel := if minSize = 0 then true else
                (if cs then
                  (if s.ssStrands.length > 1 then (b.strand, true)
                   else if s.ssStrands.length = 1 then (s.ssStrands.headD b.strand, s.novelSS)
                   else (b.strand, s.novelSS))
                else (b.strand, s.novelSS)).2 } := by
  unfold processRead at h
  rcases hr : runJuncs (bed12toJuncs b.start b.sizes b.starts) b.strand
      (juncTypes b.strand).1 (juncTypes b.strand).2 tree d with _ | s
  · rw [hr] at h
    exact Option.noConfusion h
  · rw [hr] at h
    simp only [] at h
    rcases hm : minList (juncsToBed12 b.start b.endPos s.newJuncs).2.1 with _ | minSize
    · rw [hm] at h
      exact Option.noConfusion h
    · rw [hm] at h
      have hpair := Option.some_inj.mp h
      rw [Prod.mk.injEq] at hpair
      exact ⟨s, minSize, rfl, hm, hpair.2.symm, hpair.1.symm⟩

theorem stepJunc_some_elim (strand : String) (c1T c2T : Option String)
    (tree : IntervalTree) (s : JState) (x : Int × Int) (s' : JState)
    (h : stepJunc strand c1T c2T tree s x = some s') :
    ∃ d1 d2 e1 e2,
      resolveCoord x.1 strand c1T tree s.ssData = some d1 ∧
      resolveCoord x.2 strand c2T tree d1 = some d2 ∧
      mapLookup d2 x.1 = some e1 ∧ mapLookup d2 x.2 = some e2 ∧
      s' = { ssData := d2,
             newJuncs := s.newJuncs ++ [(e1.ssCorr.coord, e2.ssCorr.coord)],
             ssTypes := [e1.ssCorr.ssType, e2.ssCorr.ssType],
             ssStrands := setAdd (setAdd s.ssStrands e1.ssCorr.strand) e2.ssCorr.strand,
             novelSS := s.novelSS ||
               decide (e1.ssCorr.ssType = none ∨ e2.ssCorr.ssType = none ∨
                 e1.ssCorr.ssType = e2.ssCorr.ssType) } := by
  unfold stepJunc at h
  rcases h1 : resolveCoord x.1 strand c1T tree s.ssData with _ | d1
  · rw [h1] at h
    exact Option.noConfusion h
  · rw [h1] at h
    try simp only [] at h
    rcases h2 : resolveCoord x.2 strand c2T tree d1 with _ | d2
    · rw [h2] at h
      exact Option.noConfusion h
    · rw [h2] at h
      try simp only [] at h
      rcases h3 : mapLookup d2 x.1 with _ | e1
      · rw [h3] at h
        try simp only [] at h
        exact Option.noConfusion h
      · rw [h3] at h
        try simp only [] at h
        rcases h4 : mapLookup d2 x.2 with _ | e2
        · rw [h4] at h
          try simp only [] at h
          exact Option.noConfusion h
        · rw [h4] at h
          try simp only [] at h
          exact ⟨d1, d2, e1, e2, rfl, h2, h3, h4, (Option.some_inj.mp h).symm⟩

theorem stepJunc_novelSS_mono (strand : String) (c1T c2T : Option String)
    (tree : IntervalTree) (s : JState) (x : Int × Int) (s' : JState)
    (h : stepJunc strand c1T c2T tree s x = some s') (hn : s.novelSS = true) :
    s'.novelSS = true := by
  obtain ⟨d1, d2, e1, e2, _, _, _, _, hs⟩ := stepJunc_some_elim strand c1T c2T tree s x s' h
  rw [hs]
  simp [hn]

theorem stepJunc_bad_types (strand : String) (c1T c2T : Option String)
    (tree : IntervalTree) (s : JState) (x : Int × Int) (s' : JState)
    (t1 t2 : Option String)
    (h : stepJunc strand c1T c2T tree s x = some s')
    (hts : s'.ssTypes = [t1, t2])
    (hbad : t1 = none ∨ t2 = none ∨ t1 = t2) : s'.novelSS = true := by
  obtain ⟨d1, d2, e1, e2, _, _, _, _, hs⟩ := stepJunc_some_elim strand c1T c2T tree s x s' h
  subst hs
  simp only [List.cons.injEq, and_true] at hts
  obtain ⟨ht1, ht2⟩ := hts
  subst ht1
  subst ht2
  simp only [Bool.or_eq_true, decide_eq_true_eq]
  exact Or.inr hbad

theorem foldlM_stepJunc_novelSS_mono (strand : String) (c1T c2T : Option String)
    (tree : IntervalTree) (l : List (Int × Int)) (s sf : JState)
    (h : List.foldlM (stepJunc strand c1T c2T tree) s l = some sf)
    (hn : s.novelSS = true) : sf.novelSS = true := by
  induction l generalizing s with
  | nil =>
      have hs : s = sf := Option.some_inj.mp h
      rw [← hs]
      exact hn
  | cons x xs ih =>
      rw [List.foldlM_cons] at h
      rcases hstep : stepJunc strand c1T c2T tree s x with _ | s'
      · rw [hstep] at h
        exact Option.noConfusion h
      · rw [hstep] at h
        exact ih s' h (stepJunc_novelSS_mono strand c1T c2T tree s x s' hstep hn)

/-! ## Claims on the read-correction pipeline -/

/-- Claim C4: if any junction of a read resolves to canonical site types
that are equal (two donors or two acceptors) or has either resolved type
`None`, the read is routed to the inconsistent partition — `novel = true` in
the emitted record — regardless of all other junctions being clean. -/
theorem bad_junction_routes_inconsistent
    (b : BED12R) (tree : IntervalTree) (d : SSMap) (cs : Bool)
    (pre post : List (Int × Int)) (x : Int × Int) (s s' : JState)
    (t1 t2 : Option String) (out : ReadOut) (d2 : SSMap)
    (hsplit : bed12toJuncs b.start b.sizes b.starts = pre ++ x :: post)
    (hpre : runJuncs pre b.strand (juncTypes b.strand).1 (juncTypes b.strand).2 tree d = some s)
    (hx : stepJunc b.strand (juncTypes b.strand).1 (juncTypes b.strand).2 tree s x = some s')
    (hts : s'.ssTypes = [t1, t2])
    (hbad : t1 = none ∨ t2 = none ∨ t1 = t2)
    (h : processRead b tree d cs = some (out, d2)) :
    out.novel = true := by
  obtain ⟨sf, minSize, hrun, hmin, hd2, hout⟩ := processRead_some_elim b tree d cs out d2 h
  have hsf : sf.novelSS = true := by
    unfold runJuncs at hrun hpre
    rw [hsplit, List.foldlM_append, hpre] at hrun
    have hrun2 : List.foldlM
        (stepJunc b.strand (juncTypes b.strand).1 (juncTypes b.strand).2 tree) s
        (x :: post) = some sf := hrun
    rw [List.foldlM_cons, hx] at hrun2
    have hrun3 : List.foldlM
        (stepJunc b.strand (juncTypes b.strand).1 (juncTypes b.strand).2 tree) s'
        post = some sf := hrun2
    exact foldlM_stepJunc_novelSS_mono _ _ _ _ post s' sf hrun3
      (stepJunc_bad_types _ _ _ _ s x s' t1 t2 hx hts hbad)
  rw [hout]
  simp only []
  split
  · rfl
  · split
    · split
      · rfl
      · split
        · exact hsf
        · exact hsf
    · exact hsf

/-- Witness for C4: `egRead` has one cleanly corrected junction and one
junction whose both endpoints resolve novel (`None` types); the record is
routed to the inconsistent partition. -/
theorem bad_junction_routes_inconsistent_witness :
    ∃ out d2, processRead egRead egTree egMap false = some (out, d2) ∧
      out.novel = true := by
  have h : processRead egRead egTree egMap false =
      some ({ chrom := "c", start := 0, endPos := 500, name := "r", score := 0,
              strand := "+", c1 := 0, c2 := 500, color := "0", blocks := 3,
              sizes := [100, 100, 100], starts := [0, 200, 400], novel := true },
            egS2.ssData) := by decide
  refine ⟨_, _, h, ?_⟩
  exact bad_junction_routes_inconsistent egRead egTree egMap false
    [(103, 197)] [] (300, 400) egS egS2 none none _ _
    (by decide) (by decide) (by decide) (by decide) (Or.inl rfl) h

/-- Counterexample to C2 as stated: `egRead` is flagged inconsistent (one
junction is novel), yet the emitted record's block sizes and starts are
`[100, 100, 100]` / `[0, 200, 400]`, rebuilt from the corrected junction
`(100, 200)` — not the read's original `[103, 103, 100]` / `[0, 197, 400]`. -/
theorem corrected_blocks_emitted_when_flagged :
    (processRead egRead egTree egMap false).map
        (fun p => (p.1.novel, p.1.sizes, p.1.starts)) =
      some (true, [100, 100, 100], [0, 200, 400]) ∧
    egRead.sizes = [103, 103, 100] ∧ egRead.starts = [0, 197, 400] ∧
    ¬ (([100, 100, 100] : List Int) = [103, 103, 100] ∧
       ([0, 200, 400] : List Int) = [0, 197, 400]) :=
  ⟨by decide, by decide, by decide, by decide⟩

/-- Claim C2 (amended): a record emitted to the inconsistent partition keeps
the original chrom, start, end, name, score, thick coordinates and color,
but its block count, block sizes and block starts are rebuilt from the
canonical (corrected) junction coordinates — the correction IS applied to
the emitted record even when the read is flagged. -/
theorem inconsistent_record_fields (b : BED12R) (tree : IntervalTree)
    (d : SSMap) (cs : Bool) (out : ReadOut) (d2 : SSMap)
    (h : processRead b tree d cs = some (out, d2)) (hnov : out.novel = true) :
    ∃ s, runJuncs (bed12toJuncs b.start b.sizes b.starts) b.strand
        (juncTypes b.strand).1 (juncTypes b.strand).2 tree d = some s ∧
      out.blocks = (juncsToBed12 b.start b.endPos s.newJuncs).1 ∧
      out.sizes = (juncsToBed12 b.start b.endPos s.newJuncs).2.1 ∧
      out.starts = (juncsToBed12 b.start b.endPos s.newJuncs).2.2 ∧
      out.chrom = b.chrom ∧ out.start = b.start ∧ out.endPos = b.endPos ∧
      out.name = b.name ∧ out.score = b.score ∧ out.c1 = b.c1 ∧
      out.c2 = b.c2 ∧ out.color = b.color := by
  obtain ⟨s, minSize, hrun, hmin, hd2, hout⟩ := processRead_some_elim b tree d cs out d2 h
  subst hout
  exact ⟨s, hrun, rfl, rfl, rfl, rfl, rfl, rfl, rfl, rfl, rfl, rfl, rfl⟩

/-- Witness for the amended C2 at the concrete flagged read `egRead`. -/
theorem inconsistent_record_fields_witness :
    ∃ s, runJuncs (bed12toJuncs egRead.start egRead.sizes egRead.starts)
        egRead.strand (juncTypes egRead.strand).1 (juncTypes egRead.strand).2
        egTree egMap = some s ∧
      ([100, 100, 100] : List Int) = (juncsToBed12 egRead.start egRead.endPos s.newJuncs).2.1 := by
  have h : processRead egRead egTree egMap false =
      some ({ chrom := "c", start := 0, endPos := 500, name := "r", score := 0,
              strand := "+", c1 := 0, c2 := 500, color := "0", blocks := 3,
              sizes := [100, 100, 100], starts := [0, 200, 400], novel := true },
            egS2.ssData) := by decide
  obtain ⟨s, hrun, _, hsz, _⟩ :=
    inconsistent_record_fields egRead egTree egMap false _ _ h (by decide)
  exact ⟨s, hrun, hsz⟩

/-- Counterexample to C5 as stated: for `egRead5` the corrected junction
`(100, 200)` rebuilds to block sizes `[0, -2]` — a zero-size block exists —
yet `min(sizes) = -2 ≠ 0`, so the read is NOT routed to the inconsistent
partition (`novel = false`, all site types valid). -/
theorem zero_block_not_always_flagged :
    (processRead egRead5 egTree egMap false).map (fun p => (p.1.novel, p.1.sizes)) =
      some (false, [0, -2]) ∧
    (0 : Int) ∈ ([0, -2] : List Int) :=
  ⟨by decide, by decide⟩

/-- Claim C5 (amended): the read is routed to the inconsistent partition
whenever the MINIMUM of the rebuilt block sizes equals zero, even when every
resolved site type is valid; a zero-size block among the rebuilt blocks
forces the flag only when it is the minimum (a negative-size block masks
it). -/
theorem minimum_zero_block_forces_inconsistent (b : BED12R)
    (tree : IntervalTree) (d : SSMap) (cs : Bool) (out : ReadOut) (d2 : SSMap)
    (s : JState)
    (h : processRead b tree d cs = some (out, d2))
    (hrun : runJuncs (bed12toJuncs b.start b.sizes b.starts) b.strand
        (juncTypes b.strand).1 (juncTypes b.strand).2 tree d = some s)
    (hmin : minList (juncsToBed12 b.start b.endPos s.newJuncs).2.1 = some 0) :
    out.novel = true := by
  obtain ⟨s2, minSize, hrun2, hmin2, hd2, hout⟩ := processRead_some_elim b tree d cs out d2 h
  have hs : s2 = s := Option.some_inj.mp (hrun2.symm.trans hrun)
  subst hs
  have hm0 : minSize = 0 := Option.some_inj.mp (hmin2.symm.trans hmin)
  subst hm0
  rw [hout]
  simp

/-- Witness for the amended C5: `egRead5w` rebuilds to block sizes `[0, 0]`
(minimum zero) and is routed to the inconsistent partition although both
site types are valid. -/
theorem minimum_zero_block_forces_inconsistent_witness :
    ∃ out d2, processRead egRead5w egTree egMap false = some (out, d2) ∧
      out.novel = true := by
  have h : processRead egRead5w egTree egMap false =
      some ({ chrom := "c", start := 100, endPos := 200, name := "r", score := 0,
              strand := "+", c1 := 100, c2 := 200, color := "0", blocks := 2,
              sizes := [0, 0], starts := [0, 100], novel := true },
            egS.ssData) := by decide
  refine ⟨_, _, h, ?_⟩
  exact minimum_zero_block_forces_inconsistent egRead5w egTree egMap false _ _
    egS h (by decide) (by decide)

/-- Claim C6: with strand-correction enabled, a strand-evidence set with
more than one distinct value forces the read inconsistent; a set with
exactly one value makes that value the emitted strand (in particular when it
differs from the declared strand); an empty set keeps the declared
strand. -/
theorem strand_correction_behaviour (b : BED12R) (tree : IntervalTree)
    (d : SSMap) (out : ReadOut) (d2 : SSMap) (s : JState)
    (hrun : runJuncs (bed12toJuncs b.start b.sizes b.starts) b.strand
        (juncTypes b.strand).1 (juncTypes b.strand).2 tree d = some s)
    (h : processRead b tree d true = some (out, d2)) :
    (s.ssStrands.length > 1 → out.novel = true) ∧
    (∀ v, s.ssStrands = [v] → out.strand = v) ∧
    (s.ssStrands = [] → out.strand = b.strand) := by
  obtain ⟨s2, minSize, hrun2, hmin2, hd2, hout⟩ := processRead_some_elim b tree d true out d2 h
  have hs : s2 = s := Option.some_inj.mp (hrun2.symm.trans hrun)
  subst hs
  subst hout
  refine ⟨?_, ?_, ?_⟩
  · intro hlen
    simp only []
    simp [hlen]
  · intro v hv
    simp only []
    simp [hv]
  · intro hv
    simp only []
    simp [hv]

/-- Witness for C6: `egReadP` is declared `+` but both junction endpoints
resolve to `-`-strand annotated sites; with strand-correction enabled the
emitted strand is `-` and the read stays consistent. -/
theorem strand_correction_behaviour_witness :
    ∃ out d2, processRead egReadP egTree egMapM true = some (out, d2) ∧
      out.strand = "-" := by
  have h : processRead egReadP egTree egMapM true =
      some ({ chrom := "c", start := 0, endPos := 300, name := "r", score := 0,
              strand := "-", c1 := 0, c2 := 300, color := "0", blocks := 2,
              sizes := [100, 100], starts := [0, 200], novel := false },
            egSM.ssData) := by decide
  refine ⟨_, _, h, ?_⟩
  exact (strand_correction_behaviour egReadP egTree egMapM _ _ egSM
    (by decide) h).2.1 "-" (by decide)
